import Mathlib

/-!  Shallow embedding of the ChatApp-MCP document parser
(src/cv_parser.py, class CVParser) and notification sender
(src/email_service.py, class EmailService).

Text is modelled as lists of characters.  Python dicts that are built
with a fixed literal key order are modelled as association lists in that
order, which matches CPython insertion-order iteration.  Floating point
confidences are modelled as exact rationals.  External collaborators
(file-format text extraction, spaCy NER, NLTK word_tokenize and the stop
word set, the two mail transports) are parameters of the corresponding
operations.  Methods that read or write instance state take the state
explicitly and return the state they leave behind, mirroring every
assignment (or absence of assignment) to self in the source. -/

abbrev Str := List Char

def toL (s : String) : Str := s.toList

/-- Python str.lower on the ASCII text handled here (per character). -/
def mapLower (l : Str) : Str := l.map Char.toLower

/-- The Python whitespace class (ASCII range) used by str.strip and re. -/
def isSpaceCh (c : Char) : Bool :=
  c == ' ' || c == '\t' || c == '\n' || c == '\r' || c == '\x0b' || c == '\x0c'

/-- Python str.strip(): drop whitespace from both ends. -/
def pyStrip (l : Str) : Str :=
  ((l.dropWhile isSpaceCh).reverse.dropWhile isSpaceCh).reverse

/-- Does the first list start the second one. -/
def leadsWith : Str → Str → Bool
  | [], _ => true
  | _ :: _, [] => false
  | a :: a1, b :: b1 => a == b && leadsWith a1 b1

/-- Python needle in hay for strings: substring containment. -/
def pyIn (needle hay : Str) : Bool :=
  match hay with
  | [] => needle.isEmpty
  | _ :: t => leadsWith needle hay || pyIn needle t

def splitChAux (sep : Char) : Str → Str → List Str
  | [], acc => [acc.reverse]
  | c :: cs, acc =>
    if c = sep then acc.reverse :: splitChAux sep cs []
    else splitChAux sep cs (c :: acc)

/-- Python str.split(sep) for a one-character separator. -/
def splitCh (sep : Char) (l : Str) : List Str := splitChAux sep l []

/-- Python sep.join(pieces). -/
def joinSep (sep : Str) : List Str → Str
  | [] => []
  | [x] => x
  | x :: y :: ys => x ++ sep ++ joinSep sep (y :: ys)

def dedupAux : List Str → List Str → List Str
  | [], _ => []
  | x :: xs, seen =>
    if x ∈ seen then dedupAux xs seen else x :: dedupAux xs (x :: seen)

/-- First-occurrence deduplication; its length is the cardinality of the
Python set of the list. -/
def dedup (l : List Str) : List Str := dedupAux l []

/-! ## Section segmentation (CVParser._parse_cv_sections) -/

/-- The ordered header pattern table of _parse_cv_sections.  Each regex is
an alternation of plain keywords with no metacharacters, so a re.search
hit is exactly a substring hit of one keyword. -/
def sectionPatterns : List (String × List Str) :=
  [("personal_info", ["personal", "contact", "details"].map toL),
   ("summary", ["summary", "profile", "objective", "about"].map toL),
   ("experience", ["experience", "employment", "work", "career", "professional"].map toL),
   ("education", ["education", "academic", "qualification", "degree"].map toL),
   ("skills", ["skills", "competencies", "technologies", "technical"].map toL),
   ("clubs", ["clubs", "unions"].map toL),
   ("projects", ["projects", "portfolio"].map toL),
   ("achievements", ["achievements", "awards", "honors", "accomplishments"].map toL)]

/-- The key order of the sections dict literal in _parse_cv_sections. -/
def allSections : List String :=
  ["personal_info", "summary", "experience", "education", "skills",
   "clubs", "projects", "achievements", "other"]

/-- re.search(pattern, line.lower()) for one alternation pattern. -/
def patMatches (kws : List Str) (l : Str) : Bool :=
  kws.any (fun w => pyIn w (mapLower l))

/-- The header test of the segmentation loop: the first pattern in table
order that matches the lowered line, provided the line is shorter than 50
characters (the loop breaks at the first hit). -/
def headerOf (l : Str) : Option String :=
  (sectionPatterns.find? (fun p => patMatches p.2 l && decide (l.length < 50))).map Prod.fst

/-- The line loop of _parse_cv_sections: skip blank lines, switch the
current section on a header line (appending it nowhere), otherwise append
the stripped line to the current section.  Returns the (section, line)
pairs in encounter order. -/
def assignLines : List Str → String → List (String × Str)
  | [], _ => []
  | l :: ls, cur =>
    if pyStrip l = [] then assignLines ls cur
    else
      match headerOf (pyStrip l) with
      | some s => assignLines ls s
      | none => (cur, pyStrip l) :: assignLines ls cur

/-- _parse_cv_sections: join each section body with newlines and keep only
non-empty sections, in the key order of the dict literal. -/
def parse_cv_sections (content : Str) : List (String × Str) :=
  let pairs := assignLines (splitCh '\n' content) "other"
  allSections.filterMap (fun n =>
    let b := (pairs.filter (fun p => decide (p.1 = n))).map Prod.snd
    if b = [] then none else some (n, joinSep ['\n'] b))

/-! ## Entity extraction (CVParser._extract_entities) -/

structure Entities where
  persons : List Str
  organizations : List Str
  locations : List Str
  dates : List Str
  technologies : List Str

/-- The tech_keywords list of _extract_entities. -/
def techKeywords : List Str :=
  ["python", "java", "javascript", "react", "node.js", "sql", "mongodb",
   "aws", "docker", "kubernetes", "git", "linux", "tensorflow", "pytorch",
   "html", "css", "angular", "vue", "django", "flask", "fastapi"].map toL

/-- Python sections dict .get(name, default empty). -/
def lookupSec (sections : List (String × Str)) (name : String) : Str :=
  match sections.find? (fun p => decide (p.1 = name)) with
  | some p => p.2
  | none => []

/-- Character class [A-Za-z0-9 &.,-] of the company regex. -/
def inCompanyCls (c : Char) : Bool :=
  decide ('A' ≤ c ∧ c ≤ 'Z') || decide ('a' ≤ c ∧ c ≤ 'z') ||
  decide ('0' ≤ c ∧ c ≤ '9') || c == ' ' || c == '&' || c == '.' ||
  c == ',' || c == '-'

def maxRun (p : Char → Bool) : Str → Nat
  | [] => 0
  | c :: cs => if p c then maxRun p cs + 1 else 0

/-- After the captured group, the regex needs whitespace then a bar. -/
def afterOk (r : Str) : Bool :=
  match r.dropWhile isSpaceCh with
  | c :: _ => c == '|'
  | [] => false

/-- Greedy class-plus with backtracking: try the longest class run first
and shrink until what follows can complete the pattern. -/
def tryCls (r1 : Str) : Nat → Option Str
  | 0 => none
  | j + 1 => if afterOk (r1.drop (j + 1)) then some (r1.take (j + 1)) else tryCls r1 j

/-- Greedy leading whitespace-star with backtracking over the class-plus. -/
def trySp (cs : Str) : Nat → Option Str
  | 0 => tryCls cs (maxRun inCompanyCls cs)
  | k + 1 =>
    match tryCls (cs.drop (k + 1)) (maxRun inCompanyCls (cs.drop (k + 1))) with
    | some g => some g
    | none => trySp cs k

/-- Leftmost match of the company regex on a line, returning group(1),
with Python re.search leftmost then greedy-with-backtracking semantics. -/
def companyMatch : Str → Option Str
  | [] => none
  | c :: cs =>
    if c = '|' then
      match trySp cs (maxRun isSpaceCh cs) with
      | some g => some g
      | none => companyMatch cs
    else companyMatch cs

/-- The regex-based company loop over the experience section lines:
append the stripped group when it is non-empty and not yet present. -/
def addCompanies (orgs : List Str) : List Str → List Str
  | [] => orgs
  | line :: rest =>
    match companyMatch line with
    | some g =>
      if pyStrip g ≠ [] ∧ pyStrip g ∉ orgs then addCompanies (orgs ++ [pyStrip g]) rest
      else addCompanies orgs rest
    | none => addCompanies orgs rest

/-- _extract_entities.  The spaCy pass over the raw text is an external
collaborator, taken as the list of (label, text) entity spans it yields;
the if/elif label routing, the regex company extraction and the keyword
technology scan are translated from the source. -/
def extract_entities (content : Str) (sections : List (String × Str))
    (ner : List (String × Str)) : Entities :=
  { persons := (ner.filter (fun e => decide (e.1 = "PERSON"))).map Prod.snd
    organizations :=
      addCompanies
        ((ner.filter (fun e => decide (e.1 = "ORG") || decide (e.1 = "COMPANY"))).map Prod.snd)
        (splitCh '\n' (lookupSec sections "experience"))
    locations := (ner.filter (fun e => decide (e.1 = "GPE") || decide (e.1 = "LOC"))).map Prod.snd
    dates := (ner.filter (fun e => decide (e.1 = "DATE"))).map Prod.snd
    technologies := techKeywords.filter (fun t => pyIn t (mapLower content)) }

/-! ## Parser state and load (CVParser.__init__, CVParser.load_cv) -/

structure ParserState where
  cv_content : Str
  cv_sections : List (String × Str)
  cv_entities : Entities
  is_loaded : Bool

/-- CVParser.__init__ : empty content, no sections, no entities, not
loaded (the empty entity dict behaves as all-empty lists under .get). -/
def initState : ParserState := ⟨[], [], ⟨[], [], [], [], []⟩, false⟩

/-- Outcome of the extraction strategy chosen by extension: the extracted
text, or a raised extraction fault (caught in load_cv). -/
inductive ExtractOutcome where
  | ok (content : Str)
  | err

/-- The extension dispatch of load_cv; ext stands for
Path(file_path).suffix.lower(). -/
def supportedExt (ext : String) : Bool :=
  ext == ".pdf" || ext == ".docx" || ext == ".doc" || ext == ".txt"

/-- CVParser.load_cv.  An unsupported extension raises ValueError which
the surrounding except turns into False; an extraction fault likewise;
whitespace-only text returns False before any assignment; otherwise the
state is replaced and loading succeeds. -/
def load_cv (st : ParserState) (ext : String) (extraction : ExtractOutcome)
    (ner : List (String × Str)) : Bool × ParserState :=
  if supportedExt ext then
    match extraction with
    | .err => (false, st)
    | .ok content =>
      if pyStrip content ≠ [] then
        let sections := parse_cv_sections content
        (true, { cv_content := content, cv_sections := sections,
                 cv_entities := extract_entities content sections ner,
                 is_loaded := true })
      else (false, st)
  else (false, st)

/-- Every non-blank line of the content fails the header test (used to
state the no-header case of claim C2). -/
def noHeaders (content : Str) : Bool :=
  (splitCh '\n' content).all (fun l => (headerOf (pyStrip l)).isNone)

/-! ## Question answering (CVParser.answer_question and responders) -/

def roleKws : List Str := ["role", "position", "job", "title"].map toL
def eduKws : List Str := ["education", "degree", "study", "university", "college"].map toL
def skillKws : List Str := ["skill", "technology", "programming", "tech"].map toL
def expKws : List Str := ["experience", "work", "company", "employer"].map toL
def projKws : List Str := ["project", "built", "developed"].map toL
def roleTitleKws : List Str :=
  ["engineer", "developer", "manager", "analyst", "director", "lead", "senior", "junior"].map toL

def dotsL : Str := toL "..."
def msgNoCv : Str := toL "No CV loaded"
def msgNoRel : Str :=
  toL "I couldn\x27t find relevant information in the CV to answer that question."

/-- CVParser._answer_role_question. -/
def answer_role_question (st : ParserState) (question : Str) :
    (Str × ℚ × List String) × ParserState :=
  let exp := lookupSec st.cv_sections "experience"
  if exp = [] then
    ((toL "No work experience information found in the CV.", 3/10, []), st)
  else
    let roles :=
      ((splitCh '\n' exp).filter (fun l => roleTitleKws.any (fun w => pyIn w (mapLower l)))).map pyStrip
    match roles with
    | [] => ((toL "Could not identify specific roles in your CV.", 2/5, ["experience"]), st)
    | r :: rs =>
      if pyIn (toL "last") (mapLower question) || pyIn (toL "recent") (mapLower question) ||
          pyIn (toL "current") (mapLower question) then
        ((toL "Your most recent role appears to be: " ++ r, 4/5, ["experience"]), st)
      else
        ((toL "Your roles include: " ++ joinSep (toL ", ") ((r :: rs).take 3), 4/5, ["experience"]), st)

/-- CVParser._answer_education_question. -/
def answer_education_question (st : ParserState) (_question : Str) :
    (Str × ℚ × List String) × ParserState :=
  let edu := lookupSec st.cv_sections "education"
  if edu = [] then ((toL "No education information found in the CV.", 3/10, []), st)
  else ((toL "Education details: " ++ edu, 7/10, ["education"]), st)

/-- CVParser._answer_skills_question.  The join over the Python set of
technologies has an unspecified element order; it is modelled as the
first-occurrence order (technologies holds no duplicates by construction,
one pass per keyword). -/
def answer_skills_question (st : ParserState) (_question : Str) :
    (Str × ℚ × List String) × ParserState :=
  let skills := lookupSec st.cv_sections "skills"
  if st.cv_entities.technologies ≠ [] then
    ((toL "Technologies and skills mentioned: " ++ joinSep (toL ", ") (dedup st.cv_entities.technologies),
      4/5, ["skills"]), st)
  else if skills ≠ [] then
    ((toL "Skills section: " ++ skills.take 200 ++ dotsL, 7/10, ["skills"]), st)
  else
    ((toL "No specific skills section found, but may be mentioned throughout the CV.", 2/5, ["skills"]), st)

/-- CVParser._answer_experience_question; the set join is modelled as
first-occurrence deduplication as above. -/
def answer_experience_question (st : ParserState) (_question : Str) :
    (Str × ℚ × List String) × ParserState :=
  let exp := lookupSec st.cv_sections "experience"
  if st.cv_entities.organizations ≠ [] then
    ((toL "Companies/organizations mentioned: " ++ joinSep (toL ", ") (dedup st.cv_entities.organizations),
      4/5, ["experience"]), st)
  else if exp ≠ [] then
    ((toL "Work experience: " ++ exp.take 200 ++ dotsL, 7/10, ["experience"]), st)
  else
    ((toL "No work experience section found.", 3/10, ["experience"]), st)

/-- CVParser._answer_projects_question. -/
def answer_projects_question (st : ParserState) (_question : Str) :
    (Str × ℚ × List String) × ParserState :=
  let proj := lookupSec st.cv_sections "projects"
  if proj ≠ [] then ((toL "Projects: " ++ proj.take 200 ++ dotsL, 7/10, ["projects"]), st)
  else ((toL "No dedicated projects section found.", 3/10, []), st)

/-- The word list [w.lower() for w in word_tokenize(s) if w.lower() not in
stop_words], with the tokenizer and stop word set as parameters. -/
def qWordsOf (tok : Str → List Str) (isStop : Str → Bool) (s : Str) : List Str :=
  ((tok s).map mapLower).filter (fun w => !(isStop w))

/-- len(set(qw) & set(cw)) / max(len(qw), 1) exactly as the code computes
it: the numerator over sets, the denominator the raw list length. -/
def overlapScore (qw cw : List Str) : ℚ :=
  (((dedup qw).filter (fun w => decide (w ∈ cw))).length : ℚ) / ((max qw.length 1 : ℕ) : ℚ)

def secScore (tok : Str → List Str) (isStop : Str → Bool) (qw : List Str) (content : Str) : ℚ :=
  overlapScore qw (qWordsOf tok isStop content)

/-- The section loop of _general_search: strict improvement replaces the
best (so ties keep the first-encountered section); empty contents are
skipped. -/
def searchLoop (tok : Str → List Str) (isStop : Str → Bool) (qw : List Str) :
    List (String × Str) → Str × ℚ × List String → Str × ℚ × List String
  | [], best => best
  | (name, content) :: rest, best =>
    if content = [] then searchLoop tok isStop qw rest best
    else if best.2.1 < secScore tok isStop qw content then
      searchLoop tok isStop qw rest (content.take 300 ++ dotsL, secScore tok isStop qw content, [name])
    else searchLoop tok isStop qw rest best

/-- CVParser._general_search. -/
def general_search (st : ParserState) (tok : Str → List Str) (isStop : Str → Bool)
    (question : Str) : (Str × ℚ × List String) × ParserState :=
  let best := searchLoop tok isStop (qWordsOf tok isStop question) st.cv_sections ([], 0, [])
  if (1 : ℚ)/10 < best.2.1 then (best, st) else ((msgNoRel, 1/5, []), st)

/-- CVParser.answer_question: the fail-closed unloaded check, then the
fixed-priority keyword routing, first match wins. -/
def answer_question (st : ParserState) (tok : Str → List Str) (isStop : Str → Bool)
    (question : Str) : (Str × ℚ × List String) × ParserState :=
  if st.is_loaded = false then ((msgNoCv, 0, []), st)
  else if roleKws.any (fun w => pyIn w (mapLower question)) then answer_role_question st question
  else if eduKws.any (fun w => pyIn w (mapLower question)) then answer_education_question st question
  else if skillKws.any (fun w => pyIn w (mapLower question)) then answer_skills_question st question
  else if expKws.any (fun w => pyIn w (mapLower question)) then answer_experience_question st question
  else if projKws.any (fun w => pyIn w (mapLower question)) then answer_projects_question st question
  else general_search st tok isStop question

/-- No routing keyword fires, so the question falls to _general_search. -/
def routesGeneral (question : Str) : Bool :=
  !(roleKws.any (fun w => pyIn w (mapLower question))) &&
  !(eduKws.any (fun w => pyIn w (mapLower question))) &&
  !(skillKws.any (fun w => pyIn w (mapLower question))) &&
  !(expKws.any (fun w => pyIn w (mapLower question))) &&
  !(projKws.any (fun w => pyIn w (mapLower question)))

/-- Modelled from the words of the spec for claim C4: the overlap score
with the denominator taken as the cardinality of the set of question
words, as the phrase about token sets describes; to be compared with
overlapScore, which is what the code computes. -/
def claimScoreSet (qw cw : List Str) : ℚ :=
  (((dedup qw).filter (fun w => decide (w ∈ cw))).length : ℚ) /
    ((max (dedup qw).length 1 : ℕ) : ℚ)

/-- A concrete tokenizer instance (whitespace splitting) used to
instantiate the tokenizer parameter in concrete scenarios. -/
def wsTok (s : Str) : List Str := (splitCh ' ' s).filter (fun w => w ≠ [])

/-- A concrete empty stop word set. -/
def noStop : Str → Bool := fun _ => false

/-! ## Notification sender (src/email_service.py) -/

/-- Python truthiness of an optional environment string: None and the
empty string are falsy. -/
def optTruthy : Option String → Bool
  | none => false
  | some s => !(s == "")

/-- EmailService.__init__ fields; sendgrid_available models the
module-level SENDGRID_AVAILABLE import flag. -/
structure EmailConfig where
  sendgrid_available : Bool
  sendgrid_api_key : Option String
  smtp_server : String
  smtp_port : Nat
  smtp_username : Option String
  smtp_password : Option String
  from_email : String

/-- EmailService.is_configured. -/
def is_configured (cfg : EmailConfig) : Bool :=
  (cfg.sendgrid_available && optTruthy cfg.sendgrid_api_key) ||
  (optTruthy cfg.smtp_username && optTruthy cfg.smtp_password)

inductive Transport where
  | sendgrid
  | smtp

def msgNotConfigured : Str :=
  toL "Email service not configured. Please set up SendGrid API key or SMTP credentials."

/-- EmailService.send_email.  The two transport helpers are external
network calls, taken as parameters; the returned list records which
helper the call reached, so an empty list is the absence of any transport
attempt. -/
def send_email (cfg : EmailConfig) (recipient subject body : Str)
    (sendWithSendgrid sendWithSmtp : Str → Str → Str → Bool × Str) :
    (Bool × Str) × List Transport :=
  if is_configured cfg = false then ((false, msgNotConfigured), [])
  else if cfg.sendgrid_available && optTruthy cfg.sendgrid_api_key then
    (sendWithSendgrid recipient subject body, [Transport.sendgrid])
  else if optTruthy cfg.smtp_username && optTruthy cfg.smtp_password then
    (sendWithSmtp recipient subject body, [Transport.smtp])
  else ((false, toL "No email service available"), [])

/-- The scenario document of claims C5 and C6. -/
def cvDoc : Str := toL "Experience\nEngineer | Acme Corp | 2020-2022\nSenior Engineer"

/-- The two non-header lines of cvDoc joined by a newline. -/
def expBody : Str := toL "Engineer | Acme Corp | 2020-2022\nSenior Engineer"

/-! # Theorems -/

/-- C1: load is all-or-nothing.  For every parser state (in particular
one holding a previously loaded document) and every failing load call
(unsupported extension, extraction fault, or whitespace-only extracted
text), load_cv returns false and the state, with all four fields, is
exactly the prior state. -/
theorem claim1_load_all_or_nothing (st : ParserState) (ext : String)
    (extraction : ExtractOutcome) (ner : List (String × Str))
    (h : supportedExt ext = false ∨ extraction = ExtractOutcome.err ∨
      ∃ c, extraction = ExtractOutcome.ok c ∧ pyStrip c = []) :
    load_cv st ext extraction ner = (false, st) := by
  unfold load_cv
  rcases h with h | h | ⟨c, hc, hs⟩
  · simp [h]
  · subst h
    split
    · rfl
    · rfl
  · subst hc
    split
    · simp [hs]
    · rfl

theorem claim1_witness :
    supportedExt ".xyz" = false ∧
    load_cv ⟨toL "old", [("other", toL "old")], ⟨[], [], [], [], []⟩, true⟩ ".xyz"
        (ExtractOutcome.ok (toL "new")) [] =
      (false, ⟨toL "old", [("other", toL "old")], ⟨[], [], [], [], []⟩, true⟩) :=
  ⟨by decide,
   claim1_load_all_or_nothing _ ".xyz" _ [] (Or.inl (by decide))⟩

/-- C7: with no document loaded, answer_question returns exactly the
fixed answer "No CV loaded" with confidence 0 and no sources, for every
question (and, being a total function, raises no fault). -/
theorem claim7_unloaded_answer (st : ParserState) (tok : Str → List Str)
    (isStop : Str → Bool) (q : Str) (h : st.is_loaded = false) :
    (answer_question st tok isStop q).1 = (msgNoCv, 0, []) := by
  unfold answer_question
  simp [h]

theorem claim7_witness :
    initState.is_loaded = false ∧
    (answer_question initState wsTok noStop (toL "What is your most recent role?")).1 =
      (msgNoCv, 0, []) :=
  ⟨rfl, claim7_unloaded_answer initState wsTok noStop (toL "What is your most recent role?") rfl⟩

/-- C8: with no primary-transport API key and no secondary-transport
username+password pair, send_email returns false with the configuration
guidance message and reaches neither transport helper. -/
theorem claim8_unconfigured_send (cfg : EmailConfig) (recipient subject body : Str)
    (sg smtpSend : Str → Str → Str → Bool × Str)
    (h1 : optTruthy cfg.sendgrid_api_key = false)
    (h2 : (optTruthy cfg.smtp_username && optTruthy cfg.smtp_password) = false) :
    send_email cfg recipient subject body sg smtpSend = ((false, msgNotConfigured), []) := by
  have hc : is_configured cfg = false := by
    simp [is_configured, h1, h2]
  unfold send_email
  simp [hc]

def emailCfg0 : EmailConfig :=
  ⟨true, none, "smtp.gmail.com", 587, none, none, "noreply@example.com"⟩

theorem claim8_witness :
    optTruthy emailCfg0.sendgrid_api_key = false ∧
    (optTruthy emailCfg0.smtp_username && optTruthy emailCfg0.smtp_password) = false ∧
    send_email emailCfg0 (toL "a@b.c") (toL "subj") (toL "body")
        (fun _ _ _ => (true, toL "sg")) (fun _ _ _ => (true, toL "smtp")) =
      ((false, msgNotConfigured), []) :=
  ⟨rfl, rfl,
   claim8_unconfigured_send emailCfg0 (toL "a@b.c") (toL "subj") (toL "body")
     (fun _ _ _ => (true, toL "sg")) (fun _ _ _ => (true, toL "smtp")) rfl rfl⟩

/-! ## Helper lemmas about stripping and line splitting -/

theorem pyStrip_eq_nil_of_all {l : Str} (h : ∀ c ∈ l, isSpaceCh c = true) :
    pyStrip l = [] := by
  unfold pyStrip
  have h1 : l.dropWhile isSpaceCh = [] := List.dropWhile_eq_nil_iff.mpr h
  simp [h1]

theorem all_space_of_pyStrip_eq_nil {l : Str} (h : pyStrip l = []) :
    ∀ c ∈ l, isSpaceCh c = true := by
  unfold pyStrip at h
  rw [List.reverse_eq_nil_iff, List.dropWhile_eq_nil_iff] at h
  have h2 : ∀ c ∈ l.dropWhile isSpaceCh, isSpaceCh c = true := by
    intro c hc
    exact h c (List.mem_reverse.mpr hc)
  intro c hc
  rw [← List.takeWhile_append_dropWhile (p := isSpaceCh) (l := l)] at hc
  rcases List.mem_append.mp hc with hc | hc
  · exact List.mem_takeWhile_imp hc
  · exact h2 c hc

theorem mem_of_mem_pyStrip {l : Str} {c : Char} (h : c ∈ pyStrip l) : c ∈ l := by
  unfold pyStrip at h
  rw [List.mem_reverse] at h
  have h1 := (List.dropWhile_sublist (l := (l.dropWhile isSpaceCh).reverse) isSpaceCh).subset h
  rw [List.mem_reverse] at h1
  exact (List.dropWhile_sublist (l := l) isSpaceCh).subset h1

theorem splitChAux_all_space : ∀ (cs acc : Str),
    (∀ l ∈ splitChAux '\n' cs acc, ∀ c ∈ l, isSpaceCh c = true) →
    (∀ c ∈ cs, isSpaceCh c = true) ∧ (∀ c ∈ acc, isSpaceCh c = true) := by
  intro cs
  induction cs with
  | nil =>
    intro acc h
    refine ⟨by simp, ?_⟩
    intro c hc
    exact h acc.reverse (by simp [splitChAux]) c (List.mem_reverse.mpr hc)
  | cons c cs ih =>
    intro acc h
    by_cases hc : c = '\n'
    · subst hc
      rw [show splitChAux '\n' ('\n' :: cs) acc = acc.reverse :: splitChAux '\n' cs [] from by
        simp [splitChAux]] at h
      have hrest := ih [] (fun l hl => h l (List.mem_cons_of_mem _ hl))
      have hacc : ∀ c2 ∈ acc, isSpaceCh c2 = true := by
        intro c2 hc2
        exact h acc.reverse (List.mem_cons_self _ _) c2 (List.mem_reverse.mpr hc2)
      refine ⟨?_, hacc⟩
      intro c2 hc2
      rcases List.mem_cons.mp hc2 with rfl | hc2
      · decide
      · exact hrest.1 c2 hc2
    · rw [show splitChAux '\n' (c :: cs) acc = splitChAux '\n' cs (c :: acc) from by
        simp [splitChAux, hc]] at h
      have hrest := ih (c :: acc) h
      refine ⟨?_, fun c2 hc2 => hrest.2 c2 (List.mem_cons_of_mem _ hc2)⟩
      intro c2 hc2
      rcases List.mem_cons.mp hc2 with rfl | hc2
      · exact hrest.2 c2 (List.mem_cons_self _ _)
      · exact hrest.1 c2 hc2

theorem exists_nonblank_line {content : Str} (h : pyStrip content ≠ []) :
    ∃ l ∈ splitCh '\n' content, pyStrip l ≠ [] := by
  by_contra hcon
  push_neg at hcon
  apply h
  apply pyStrip_eq_nil_of_all
  have hall : ∀ l ∈ splitCh '\n' content, ∀ c ∈ l, isSpaceCh c = true := by
    intro l hl
    exact all_space_of_pyStrip_eq_nil (hcon l hl)
  exact (splitChAux_all_space content [] hall).1

theorem splitChAux_no_sep {sep : Char} : ∀ (cs acc : Str), sep ∉ acc →
    ∀ l ∈ splitChAux sep cs acc, sep ∉ l := by
  intro cs
  induction cs with
  | nil =>
    intro acc hacc l hl
    rw [show splitChAux sep [] acc = [acc.reverse] from rfl] at hl
    rcases List.mem_singleton.mp hl with rfl
    simpa using hacc
  | cons c cs ih =>
    intro acc hacc l hl
    by_cases hc : c = sep
    · subst hc
      rw [show splitChAux c (c :: cs) acc = acc.reverse :: splitChAux c cs [] from by
        simp [splitChAux]] at hl
      rcases List.mem_cons.mp hl with rfl | hl
      · simpa using hacc
      · exact ih [] (by simp) l hl
    · rw [show splitChAux sep (c :: cs) acc = splitChAux sep cs (c :: acc) from by
        simp [splitChAux, hc]] at hl
      refine ih (c :: acc) ?_ l hl
      intro hmem
      rcases List.mem_cons.mp hmem with h1 | h1
      · exact hc h1.symm
      · exact hacc h1

theorem splitChAux_append_nosep {sep : Char} :
    ∀ (x cs acc : Str), sep ∉ x →
    splitChAux sep (x ++ cs) acc = splitChAux sep cs (x.reverse ++ acc) := by
  intro x
  induction x with
  | nil => intro cs acc _; simp
  | cons c x ih =>
    intro cs acc hx
    have hc : ¬ c = sep := by
      intro h
      exact hx (h ▸ List.mem_cons_self _ _)
    rw [List.cons_append, show splitChAux sep (c :: (x ++ cs)) acc = splitChAux sep (x ++ cs) (c :: acc) from by
      simp [splitChAux, hc]]
    rw [ih cs (c :: acc) (fun h => hx (List.mem_cons_of_mem _ h))]
    simp

theorem splitCh_joinSep {sep : Char} : ∀ (pieces : List Str), pieces ≠ [] →
    (∀ x ∈ pieces, sep ∉ x) → splitCh sep (joinSep [sep] pieces) = pieces := by
  intro pieces
  induction pieces with
  | nil => intro h; exact absurd rfl h
  | cons x rest ih =>
    intro _ hno
    cases rest with
    | nil =>
      rw [show joinSep [sep] [x] = x from rfl]
      unfold splitCh
      rw [show (x : Str) = x ++ [] from by simp,
        splitChAux_append_nosep x [] [] (hno x (List.mem_cons_self _ _))]
      simp [splitChAux]
    | cons y ys =>
      rw [show joinSep [sep] (x :: y :: ys) = x ++ (sep :: joinSep [sep] (y :: ys)) from by
        simp [joinSep]]
      unfold splitCh
      rw [splitChAux_append_nosep x _ [] (hno x (List.mem_cons_self _ _))]
      rw [show splitChAux sep (sep :: joinSep [sep] (y :: ys)) (x.reverse ++ []) =
        (x.reverse ++ []).reverse :: splitChAux sep (joinSep [sep] (y :: ys)) [] from by
        simp [splitChAux]]
      have := ih (by simp) (fun z hz => hno z (List.mem_cons_of_mem _ hz))
      unfold splitCh at this
      rw [this]
      simp

theorem joinSep_ne_nil {sep : Str} {x : Str} (xs : List Str) (hx : x ≠ []) :
    joinSep sep (x :: xs) ≠ [] := by
  cases xs with
  | nil => simpa [joinSep] using hx
  | cons y ys => simp [joinSep, hx]

/-! ## Helper lemmas about the segmentation loop -/

theorem assignLines_no_header : ∀ (ls : List Str) (cur : String),
    (∀ l ∈ ls, headerOf (pyStrip l) = none) →
    assignLines ls cur =
      (ls.filter (fun l => decide (pyStrip l ≠ []))).map (fun l => (cur, pyStrip l)) := by
  intro ls
  induction ls with
  | nil => intro cur _; rfl
  | cons l ls ih =>
    intro cur h
    have hl := h l (List.mem_cons_self _ _)
    have hrest := ih cur (fun x hx => h x (List.mem_cons_of_mem _ hx))
    by_cases hs : pyStrip l = []
    · simp [assignLines, hs, hrest]
    · simp [assignLines, hs, hl, hrest]

theorem filter_key_all (ls : List Str) (cur : String) :
    (((ls.map (fun l => (cur, pyStrip l))).filter (fun p => decide (p.1 = cur))).map Prod.snd) =
      ls.map pyStrip := by
  induction ls with
  | nil => rfl
  | cons l ls ih => simp [ih]

theorem assignLines_mem : ∀ (ls : List Str) (cur : String) (p : String × Str),
    p ∈ assignLines ls cur →
    headerOf p.2 = none ∧ p.2 ≠ [] ∧ ∃ l ∈ ls, p.2 = pyStrip l := by
  intro ls
  induction ls with
  | nil => intro cur p h; simp [assignLines] at h
  | cons l ls ih =>
    intro cur p h
    by_cases hs : pyStrip l = []
    · rw [show assignLines (l :: ls) cur = assignLines ls cur from by simp [assignLines, hs]] at h
      obtain ⟨h1, h2, l2, hl2, h3⟩ := ih cur p h
      exact ⟨h1, h2, l2, List.mem_cons_of_mem _ hl2, h3⟩
    · cases hh : headerOf (pyStrip l) with
      | some s =>
        rw [show assignLines (l :: ls) cur = assignLines ls s from by
          simp [assignLines, hs, hh]] at h
        obtain ⟨h1, h2, l2, hl2, h3⟩ := ih s p h
        exact ⟨h1, h2, l2, List.mem_cons_of_mem _ hl2, h3⟩
      | none =>
        rw [show assignLines (l :: ls) cur = (cur, pyStrip l) :: assignLines ls cur from by
          simp [assignLines, hs, hh]] at h
        rcases List.mem_cons.mp h with rfl | h
        · exact ⟨hh, hs, l, List.mem_cons_self _ _, rfl⟩
        · obtain ⟨h1, h2, l2, hl2, h3⟩ := ih cur p h
          exact ⟨h1, h2, l2, List.mem_cons_of_mem _ hl2, h3⟩

theorem parse_mem {content : Str} {name : String} {body : Str}
    (h : (name, body) ∈ parse_cv_sections content) :
    ∃ b, b ≠ [] ∧ body = joinSep ['\n'] b ∧
      ∀ x ∈ b, ∃ p ∈ assignLines (splitCh '\n' content) "other", p.2 = x := by
  simp only [parse_cv_sections] at h
  rw [List.mem_filterMap] at h
  obtain ⟨n, _, hn⟩ := h
  by_cases hb :
      (((assignLines (splitCh '\n' content) "other").filter
        (fun p => decide (p.1 = n))).map Prod.snd) = []
  · simp [hb] at hn
  · rw [if_neg hb] at hn
    obtain ⟨rfl, rfl⟩ := Prod.mk.injEq .. ▸ Option.some.injEq .. ▸ hn
    refine ⟨_, hb, rfl, ?_⟩
    intro x hx
    rw [List.mem_map] at hx
    obtain ⟨p, hp, hpx⟩ := hx
    exact ⟨p, List.mem_of_mem_filter hp, hpx⟩

/-- C2 counterexample: the claim asserts every successful load of
non-whitespace text yields a non-empty sections mapping, but a document
whose only line is a section header ("Experience") loads successfully
(the extension is supported and the text is not whitespace-only) with an
empty sections mapping, because every line was consumed as a header and
empty bodies are dropped. -/
theorem claim2_counterexample :
    supportedExt ".txt" = true ∧ pyStrip (toL "Experience") ≠ [] ∧
    (load_cv initState ".txt" (ExtractOutcome.ok (toL "Experience")) []).1 = true ∧
    (load_cv initState ".txt" (ExtractOutcome.ok (toL "Experience")) []).2.is_loaded = true ∧
    (load_cv initState ".txt" (ExtractOutcome.ok (toL "Experience")) []).2.cv_sections = [] :=
  ⟨by decide, by decide, rfl, rfl, rfl⟩

/-- C2 (amended): for every supported extension and non-whitespace
extracted text, load_cv returns true and sets is_loaded; and when no line
of the document is classified as a section header, the sections mapping
contains a non-empty other bucket (the unconditional non-emptiness of the
mapping fails when every non-blank line is a header, as the
counterexample shows). -/
theorem claim2_load_success (st : ParserState) (ext : String) (content : Str)
    (ner : List (String × Str)) (hext : supportedExt ext = true)
    (hc : pyStrip content ≠ []) :
    (load_cv st ext (ExtractOutcome.ok content) ner).1 = true ∧
    (load_cv st ext (ExtractOutcome.ok content) ner).2.is_loaded = true ∧
    (noHeaders content = true →
      ∃ body, ("other", body) ∈ (load_cv st ext (ExtractOutcome.ok content) ner).2.cv_sections ∧
        body ≠ []) := by
  have hload : load_cv st ext (ExtractOutcome.ok content) ner =
      (true, ⟨content, parse_cv_sections content,
        extract_entities content (parse_cv_sections content) ner, true⟩) := by
    unfold load_cv
    rw [hext]
    simp [hc]
  refine ⟨by rw [hload], by rw [hload], ?_⟩
  intro hnh
  rw [hload]
  have hall : ∀ l ∈ splitCh '\n' content, headerOf (pyStrip l) = none := by
    intro l hl
    have := List.all_eq_true.mp hnh l hl
    simpa [Option.isNone_iff_eq_none] using this
  obtain ⟨l0, hl0, hl0ne⟩ := exists_nonblank_line hc
  have hassign := assignLines_no_header (splitCh '\n' content) "other" hall
  set lsf := (splitCh '\n' content).filter (fun l => decide (pyStrip l ≠ [])) with hlsf
  have hl0f : l0 ∈ lsf := by
    rw [hlsf, List.mem_filter]
    exact ⟨hl0, by simpa using hl0ne⟩
  have hbody :
      (((assignLines (splitCh '\n' content) "other").filter
        (fun p => decide (p.1 = "other"))).map Prod.snd) = lsf.map pyStrip := by
    rw [hassign, hlsf]
    exact filter_key_all _ _
  have hbne : lsf.map pyStrip ≠ [] := by
    intro hcon
    rw [List.map_eq_nil_iff] at hcon
    rw [hcon] at hl0f
    exact (List.not_mem_nil l0) hl0f
  refine ⟨joinSep ['\n'] (lsf.map pyStrip), ?_, ?_⟩
  · show _ ∈ parse_cv_sections content
    simp only [parse_cv_sections]
    rw [List.mem_filterMap]
    refine ⟨"other", by simp [allSections], ?_⟩
    rw [hbody, if_neg hbne]
  · cases hlm : lsf.map pyStrip with
    | nil => exact absurd hlm hbne
    | cons b0 brest =>
      have hb0 : b0 ≠ [] := by
        have : b0 ∈ lsf.map pyStrip := by rw [hlm]; exact List.mem_cons_self _ _
        rw [List.mem_map] at this
        obtain ⟨l1, hl1, hb0⟩ := this
        rw [hlsf, List.mem_filter] at hl1
        subst hb0
        simpa using hl1.2
      exact joinSep_ne_nil brest hb0

theorem claim2_witness :
    supportedExt ".txt" = true ∧ pyStrip (toL "hello world") ≠ [] ∧
    ((load_cv initState ".txt" (ExtractOutcome.ok (toL "hello world")) []).1 = true ∧
     (load_cv initState ".txt" (ExtractOutcome.ok (toL "hello world")) []).2.is_loaded = true ∧
     (noHeaders (toL "hello world") = true →
       ∃ body,
         ("other", body) ∈
           (load_cv initState ".txt" (ExtractOutcome.ok (toL "hello world")) []).2.cv_sections ∧
         body ≠ [])) :=
  ⟨by decide, by decide,
   claim2_load_success initState ".txt" (toL "hello world") [] (by decide) (by decide)⟩

/-! ## Helper lemmas for the company extraction scenario -/

theorem addCompanies_mono : ∀ (ls : List Str) (orgs : List Str) (x : Str),
    x ∈ orgs → x ∈ addCompanies orgs ls := by
  intro ls
  induction ls with
  | nil => intro orgs x h; exact h
  | cons l rest ih =>
    intro orgs x h
    cases hcm : companyMatch l with
    | some g =>
      rw [show addCompanies orgs (l :: rest) =
        (if pyStrip g ≠ [] ∧ pyStrip g ∉ orgs then addCompanies (orgs ++ [pyStrip g]) rest
         else addCompanies orgs rest) from by simp [addCompanies, hcm]]
      by_cases hcond : pyStrip g ≠ [] ∧ pyStrip g ∉ orgs
      · rw [if_pos hcond]
        exact ih _ x (List.mem_append_left _ h)
      · rw [if_neg hcond]
        exact ih _ x h
    | none =>
      rw [show addCompanies orgs (l :: rest) = addCompanies orgs rest from by
        simp [addCompanies, hcm]]
      exact ih _ x h

theorem acme_in_addCompanies (orgs : List Str) :
    toL "Acme Corp" ∈
      addCompanies orgs [toL "Engineer | Acme Corp | 2020-2022", toL "Senior Engineer"] := by
  have e1 : addCompanies orgs [toL "Engineer | Acme Corp | 2020-2022", toL "Senior Engineer"] =
      (if toL "Acme Corp" ≠ [] ∧ toL "Acme Corp" ∉ orgs then
        addCompanies (orgs ++ [toL "Acme Corp"]) [toL "Senior Engineer"]
       else addCompanies orgs [toL "Senior Engineer"]) := rfl
  have e2 : ∀ X : List Str, addCompanies X [toL "Senior Engineer"] = X := fun _ => rfl
  by_cases h : toL "Acme Corp" ∈ orgs
  · rw [e1, if_neg (by simp [h]), e2]
    exact h
  · rw [e1, if_pos ⟨by decide, h⟩, e2]
    exact List.mem_append_right _ (List.mem_singleton.mpr rfl)

/-- C5: loading the document with lines "Experience",
"Engineer | Acme Corp | 2020-2022", "Senior Engineer" yields an
experience section equal to the two non-header lines joined by a newline,
and the organizations entity list contains "Acme Corp" via the
delimiter-extraction rule with its empty-string and duplicate guards —
for every NER collaborator output and every prior state. -/
theorem claim5_scenario_sections_orgs (st : ParserState) (ner : List (String × Str)) :
    lookupSec (load_cv st ".txt" (ExtractOutcome.ok cvDoc) ner).2.cv_sections "experience" =
      expBody ∧
    toL "Acme Corp" ∈ (load_cv st ".txt" (ExtractOutcome.ok cvDoc) ner).2.cv_entities.organizations := by
  constructor
  · rfl
  · exact acme_in_addCompanies _

/-- C6: against the same document, the question "What is your most recent
role?" is routed to the role responder and answered at confidence 0.8
with sources exactly ["experience"], the answer containing the first
experience line holding a job-title indicator word — for every NER
output, tokenizer and stop word set (the general responder is not
reached). -/
theorem claim6_scenario_recent_role (st : ParserState) (ner : List (String × Str))
    (tok : Str → List Str) (isStop : Str → Bool) :
    (answer_question (load_cv st ".txt" (ExtractOutcome.ok cvDoc) ner).2 tok isStop
        (toL "What is your most recent role?")).1.2.1 = 4/5 ∧
    (answer_question (load_cv st ".txt" (ExtractOutcome.ok cvDoc) ner).2 tok isStop
        (toL "What is your most recent role?")).1.2.2 = ["experience"] ∧
    pyIn (toL "Engineer | Acme Corp | 2020-2022")
      (answer_question (load_cv st ".txt" (ExtractOutcome.ok cvDoc) ner).2 tok isStop
        (toL "What is your most recent role?")).1.1 = true :=
  ⟨rfl, rfl, rfl⟩

/-! ## Helper lemmas: no responder assigns to the parser state -/

theorem answer_role_state (st : ParserState) (q : Str) :
    (answer_role_question st q).2 = st := by
  unfold answer_role_question
  dsimp only
  repeat' split
  all_goals rfl

theorem answer_education_state (st : ParserState) (q : Str) :
    (answer_education_question st q).2 = st := by
  unfold answer_education_question
  dsimp only
  repeat' split
  all_goals rfl

theorem answer_skills_state (st : ParserState) (q : Str) :
    (answer_skills_question st q).2 = st := by
  unfold answer_skills_question
  dsimp only
  repeat' split
  all_goals rfl

theorem answer_experience_state (st : ParserState) (q : Str) :
    (answer_experience_question st q).2 = st := by
  unfold answer_experience_question
  dsimp only
  repeat' split
  all_goals rfl

theorem answer_projects_state (st : ParserState) (q : Str) :
    (answer_projects_question st q).2 = st := by
  unfold answer_projects_question
  dsimp only
  repeat' split
  all_goals rfl

theorem general_search_state (st : ParserState) (tok : Str → List Str) (isStop : Str → Bool)
    (q : Str) : (general_search st tok isStop q).2 = st := by
  unfold general_search
  dsimp only
  repeat' split
  all_goals rfl

/-- C10 (implicit frame property): answer_question is read-only on the
parser state.  No branch of the dispatcher or of any responder, the
general search included, assigns to any of the four fields, so the state
after the call is exactly the state before it; consequently asking the
same question twice against an unchanged document yields the identical
result. -/
theorem claim10_answer_question_readonly (st : ParserState) (tok : Str → List Str)
    (isStop : Str → Bool) (q : Str) :
    (answer_question st tok isStop q).2 = st ∧
    (answer_question ((answer_question st tok isStop q).2) tok isStop q).1 =
      (answer_question st tok isStop q).1 := by
  have hstate : (answer_question st tok isStop q).2 = st := by
    unfold answer_question
    split
    · rfl
    · split
      · exact answer_role_state st q
      · split
        · exact answer_education_state st q
        · split
          · exact answer_skills_state st q
          · split
            · exact answer_experience_state st q
            · split
              · exact answer_projects_state st q
              · exact general_search_state st tok isStop q
  exact ⟨hstate, by rw [hstate]⟩

/-! ## Helper lemmas: bounds on the overlap score -/

theorem dedupAux_length_le : ∀ (l seen : List Str), (dedupAux l seen).length ≤ l.length := by
  intro l
  induction l with
  | nil => intro seen; simp [dedupAux]
  | cons x xs ih =>
    intro seen
    by_cases hx : x ∈ seen
    · simp only [dedupAux, if_pos hx]
      exact le_trans (ih seen) (Nat.le_succ _)
    · simp only [dedupAux, if_neg hx, List.length_cons]
      exact Nat.succ_le_succ (ih (x :: seen))

theorem overlapScore_nonneg (qw cw : List Str) : 0 ≤ overlapScore qw cw := by
  unfold overlapScore
  positivity

theorem overlapScore_le_one (qw cw : List Str) : overlapScore qw cw ≤ 1 := by
  unfold overlapScore
  rw [div_le_one (by positivity)]
  have h1 : ((dedup qw).filter (fun w => decide (w ∈ cw))).length ≤ (dedup qw).length :=
    List.length_filter_le _ _
  have h2 : (dedup qw).length ≤ qw.length := dedupAux_length_le qw []
  have h3 : qw.length ≤ max qw.length 1 := Nat.le_max_left _ _
  exact_mod_cast le_trans h1 (le_trans h2 h3)

theorem searchLoop_conf_bounds (tok : Str → List Str) (isStop : Str → Bool) (qw : List Str) :
    ∀ (secs : List (String × Str)) (best : Str × ℚ × List String),
    0 ≤ best.2.1 → best.2.1 ≤ 1 →
    0 ≤ (searchLoop tok isStop qw secs best).2.1 ∧ (searchLoop tok isStop qw secs best).2.1 ≤ 1 := by
  intro secs
  induction secs with
  | nil => intro best h0 h1; exact ⟨h0, h1⟩
  | cons sec rest ih =>
    intro best h0 h1
    obtain ⟨name, content⟩ := sec
    by_cases hc : content = []
    · rw [show searchLoop tok isStop qw ((name, content) :: rest) best =
        searchLoop tok isStop qw rest best from by simp [searchLoop, hc]]
      exact ih best h0 h1
    · by_cases himp : best.2.1 < secScore tok isStop qw content
      · rw [show searchLoop tok isStop qw ((name, content) :: rest) best =
          searchLoop tok isStop qw rest
            (content.take 300 ++ dotsL, secScore tok isStop qw content, [name]) from by
          simp [searchLoop, hc, himp]]
        exact ih _ (overlapScore_nonneg _ _) (overlapScore_le_one _ _)
      · rw [show searchLoop tok isStop qw ((name, content) :: rest) best =
          searchLoop tok isStop qw rest best from by simp [searchLoop, hc, himp]]
        exact ih best h0 h1

theorem general_search_conf_bounds (st : ParserState) (tok : Str → List Str)
    (isStop : Str → Bool) (q : Str) :
    0 ≤ (general_search st tok isStop q).1.2.1 ∧ (general_search st tok isStop q).1.2.1 ≤ 1 := by
  unfold general_search
  dsimp only
  split
  · exact searchLoop_conf_bounds tok isStop _ st.cv_sections ([], 0, []) (by norm_num) (by norm_num)
  · constructor
    · norm_num
    · norm_num

/-- C9: for every parser state and question the confidence returned by
answer_question lies in the interval [0, 1]: the fixed responder
confidences 0, 0.2, 0.3, 0.4, 0.7 and 0.8 all do, and the overlap score
of the general responder is a quotient of a set-intersection size by a
larger-or-equal positive denominator, hence also in range. -/
theorem claim9_confidence_in_range (st : ParserState) (tok : Str → List Str)
    (isStop : Str → Bool) (q : Str) :
    0 ≤ (answer_question st tok isStop q).1.2.1 ∧
    (answer_question st tok isStop q).1.2.1 ≤ 1 := by
  unfold answer_question
  split
  · constructor
    · norm_num
    · norm_num
  · split
    · unfold answer_role_question
      dsimp only
      repeat' split
      all_goals constructor
      all_goals norm_num
    · split
      · unfold answer_education_question
        dsimp only
        repeat' split
        all_goals constructor
        all_goals norm_num
      · split
        · unfold answer_skills_question
          dsimp only
          repeat' split
          all_goals constructor
          all_goals norm_num
        · split
          · unfold answer_experience_question
            dsimp only
            repeat' split
            all_goals constructor
            all_goals norm_num
          · split
            · unfold answer_projects_question
              dsimp only
              repeat' split
              all_goals constructor
              all_goals norm_num
            · exact general_search_conf_bounds st tok isStop q

/-! ## Helper lemmas about first-match search -/

theorem find?_decomp {α : Type} (p : α → Bool) :
    ∀ (xs : List α) (x : α), xs.find? p = some x →
    ∃ pre suf, xs = pre ++ x :: suf ∧ p x = true ∧ ∀ y ∈ pre, p y = false := by
  intro xs
  induction xs with
  | nil => intro x h; simp [List.find?] at h
  | cons a t ih =>
    intro x h
    by_cases hp : p a = true
    · rw [List.find?_cons_of_pos _ hp, Option.some.injEq] at h
      subst h
      exact ⟨[], t, rfl, hp, by simp⟩
    · have hp2 : p a = false := Bool.not_eq_true _ ▸ Bool.of_not_eq_true hp
      rw [List.find?_cons_of_neg _ (by simp [hp2])] at h
      obtain ⟨pre, suf, heq, hx, hpre⟩ := ih x h
      refine ⟨a :: pre, suf, by rw [heq, List.cons_append], hx, ?_⟩
      intro y hy
      rcases List.mem_cons.mp hy with rfl | hy
      · exact hp2
      · exact hpre y hy

theorem find?_of_exists {α : Type} (p : α → Bool) :
    ∀ (xs : List α), (∃ x ∈ xs, p x = true) → ∃ y, xs.find? p = some y := by
  intro xs hex
  cases h : xs.find? p with
  | some y => exact ⟨y, rfl⟩
  | none =>
    obtain ⟨x, hx, hpx⟩ := hex
    have := List.find?_eq_none.mp h x hx
    rw [hpx] at this
    exact absurd rfl this

/-- C3: section header handling.  First part: for every non-blank line
whose stripped form matches at least one header pattern and is shorter
than 50 characters, the segmentation loop switches the current section to
the first matching category in the fixed table order and appends the line
to no section body.  Second part: consequently, every line of every
section body in a parsed document fails the header test. -/
theorem claim3_header_lines :
    (∀ (l : Str) (lines : List Str) (cur : String),
      pyStrip l ≠ [] →
      (∃ p ∈ sectionPatterns, patMatches p.2 (pyStrip l) = true) →
      (pyStrip l).length < 50 →
      ∃ s pre suf kws,
        sectionPatterns = pre ++ (s, kws) :: suf ∧
        patMatches kws (pyStrip l) = true ∧
        (∀ p2 ∈ pre, patMatches p2.2 (pyStrip l) = false) ∧
        headerOf (pyStrip l) = some s ∧
        assignLines (l :: lines) cur = assignLines lines s) ∧
    (∀ (content : Str) (name : String) (body : Str),
      (name, body) ∈ parse_cv_sections content →
      ∀ bl ∈ splitCh '\n' body, headerOf bl = none) := by
  constructor
  · intro l lines cur h1 h2 h3
    have hex : ∃ p ∈ sectionPatterns,
        (fun p => patMatches p.2 (pyStrip l) && decide ((pyStrip l).length < 50)) p = true := by
      obtain ⟨p, hp, hm⟩ := h2
      exact ⟨p, hp, by simp [hm, h3]⟩
    obtain ⟨y, hy⟩ := find?_of_exists _ sectionPatterns hex
    obtain ⟨pre, suf, heq, hpy, hpre⟩ := find?_decomp _ sectionPatterns y hy
    have hhead : headerOf (pyStrip l) = some y.1 := by
      unfold headerOf
      rw [hy]
      rfl
    refine ⟨y.1, pre, suf, y.2, by rw [heq], ?_, ?_, hhead, ?_⟩
    · have := Bool.and_eq_true .. ▸ hpy
      exact this.1
    · intro p2 hp2
      have := hpre p2 hp2
      rw [Bool.and_eq_true_iff] at hpy
      by_contra hcon
      rw [Bool.not_eq_false] at hcon
      rw [hcon] at this
      simp [h3] at this
    · rw [show assignLines (l :: lines) cur = assignLines lines y.1 from by
        simp [assignLines, h1, hhead]]
  · intro content name body hmem bl hbl
    obtain ⟨b, hbne, hbody, hb⟩ := parse_mem hmem
    have hprop : ∀ x ∈ b, headerOf x = none ∧ x ≠ [] ∧ ('\n' : Char) ∉ x := by
      intro x hx
      obtain ⟨p, hp, hpx⟩ := hb x hx
      obtain ⟨hh, hne, l2, hl2, hps⟩ := assignLines_mem _ _ _ hp
      have hnosep : ('\n' : Char) ∉ l2 :=
        splitChAux_no_sep content [] (by simp) l2 hl2
      refine ⟨hpx ▸ hh, hpx ▸ hne, ?_⟩
      rw [← hpx, hps]
      intro hmem2
      exact hnosep (mem_of_mem_pyStrip hmem2)
    have hrt : splitCh '\n' body = b := by
      rw [hbody]
      exact splitCh_joinSep b hbne (fun x hx => (hprop x hx).2.2)
    rw [hrt] at hbl
    exact (hprop bl hbl).1

theorem claim3_witness :
    (pyStrip (toL "Academic Projects") ≠ [] ∧
     (∃ p ∈ sectionPatterns, patMatches p.2 (pyStrip (toL "Academic Projects")) = true) ∧
     (pyStrip (toL "Academic Projects")).length < 50) ∧
    (∃ s pre suf kws,
      sectionPatterns = pre ++ (s, kws) :: suf ∧
      patMatches kws (pyStrip (toL "Academic Projects")) = true ∧
      (∀ p2 ∈ pre, patMatches p2.2 (pyStrip (toL "Academic Projects")) = false) ∧
      headerOf (pyStrip (toL "Academic Projects")) = some s ∧
      assignLines [toL "Academic Projects"] "other" = assignLines [] s) ∧
    headerOf (toL "hello world") = none :=
  ⟨⟨by decide, by decide, by decide⟩,
   claim3_header_lines.1 (toL "Academic Projects") [] "other" (by decide) (by decide) (by decide),
   claim3_header_lines.2 (toL "hello world") "other" (toL "hello world")
     (by decide) (toL "hello world") (by decide)⟩

/-! ## Helper lemmas characterizing the general search loop -/

theorem searchLoop_all_le (tok : Str → List Str) (isStop : Str → Bool) (qw : List Str) :
    ∀ (secs : List (String × Str)) (best : Str × ℚ × List String),
    (∀ x ∈ secs, x.2 ≠ [] → secScore tok isStop qw x.2 ≤ best.2.1) →
    searchLoop tok isStop qw secs best = best := by
  intro secs
  induction secs with
  | nil => intro best _; rfl
  | cons sec rest ih =>
    intro best h
    obtain ⟨name, content⟩ := sec
    by_cases hc : content = []
    · rw [show searchLoop tok isStop qw ((name, content) :: rest) best =
        searchLoop tok isStop qw rest best from by simp [searchLoop, hc]]
      exact ih best (fun x hx => h x (List.mem_cons_of_mem _ hx))
    · have hle : secScore tok isStop qw content ≤ best.2.1 :=
        h (name, content) (List.mem_cons_self _ _) hc
      have himp : ¬ best.2.1 < secScore tok isStop qw content := not_lt.mpr hle
      rw [show searchLoop tok isStop qw ((name, content) :: rest) best =
        searchLoop tok isStop qw rest best from by simp [searchLoop, hc, himp]]
      exact ih best (fun x hx => h x (List.mem_cons_of_mem _ hx))

theorem searchLoop_first_max (tok : Str → List Str) (isStop : Str → Bool) (qw : List Str) :
    ∀ (pre : List (String × Str)) (name : String) (content : Str)
      (post : List (String × Str)) (best : Str × ℚ × List String),
    content ≠ [] →
    best.2.1 < secScore tok isStop qw content →
    (∀ x ∈ pre, x.2 ≠ [] → secScore tok isStop qw x.2 < secScore tok isStop qw content) →
    (∀ x ∈ post, x.2 ≠ [] → secScore tok isStop qw x.2 ≤ secScore tok isStop qw content) →
    searchLoop tok isStop qw (pre ++ (name, content) :: post) best =
      (content.take 300 ++ dotsL, secScore tok isStop qw content, [name]) := by
  intro pre
  induction pre with
  | nil =>
    intro name content post best hc hlt _ hpost
    rw [List.nil_append,
      show searchLoop tok isStop qw ((name, content) :: post) best =
        searchLoop tok isStop qw post
          (content.take 300 ++ dotsL, secScore tok isStop qw content, [name]) from by
        simp [searchLoop, hc, hlt]]
    exact searchLoop_all_le tok isStop qw post _ hpost
  | cons y pre2 ih =>
    intro name content post best hc hlt hpre hpost
    have hpre2 : ∀ x ∈ pre2, x.2 ≠ [] →
        secScore tok isStop qw x.2 < secScore tok isStop qw content :=
      fun x hx => hpre x (List.mem_cons_of_mem _ hx)
    obtain ⟨yn, yc⟩ := y
    rw [List.cons_append]
    by_cases hyc : yc = []
    · rw [show searchLoop tok isStop qw ((yn, yc) :: (pre2 ++ (name, content) :: post)) best =
        searchLoop tok isStop qw (pre2 ++ (name, content) :: post) best from by
        simp [searchLoop, hyc]]
      exact ih name content post best hc hlt hpre2 hpost
    · have hylt : secScore tok isStop qw yc < secScore tok isStop qw content :=
        hpre (yn, yc) (List.mem_cons_self _ _) hyc
      by_cases hbest : best.2.1 < secScore tok isStop qw yc
      · rw [show searchLoop tok isStop qw ((yn, yc) :: (pre2 ++ (name, content) :: post)) best =
          searchLoop tok isStop qw (pre2 ++ (name, content) :: post)
            (yc.take 300 ++ dotsL, secScore tok isStop qw yc, [yn]) from by
          simp [searchLoop, hyc, hbest]]
        exact ih name content post _ hc hylt hpre2 hpost
      · rw [show searchLoop tok isStop qw ((yn, yc) :: (pre2 ++ (name, content) :: post)) best =
          searchLoop tok isStop qw (pre2 ++ (name, content) :: post) best from by
          simp [searchLoop, hyc, hbest]]
        exact ih name content post best hc hlt hpre2 hpost

theorem first_max_decomp {α : Type} (f : α → ℚ) (P : α → Prop) :
    ∀ (l : List α), (∃ x ∈ l, P x) →
    ∃ pre y post, l = pre ++ y :: post ∧ P y ∧
      (∀ z ∈ pre, P z → f z < f y) ∧ (∀ z ∈ l, P z → f z ≤ f y) := by
  intro l
  induction l with
  | nil => intro h; simp at h
  | cons a t ih =>
    intro hex
    by_cases hPa : P a
    · by_cases hbound : ∀ z ∈ t, P z → f z ≤ f a
      · refine ⟨[], a, t, rfl, hPa, by simp, ?_⟩
        intro z hz hPz
        rcases List.mem_cons.mp hz with rfl | hz
        · exact le_refl _
        · exact hbound z hz hPz
      · push_neg at hbound
        obtain ⟨z0, hz0, hPz0, hz0gt⟩ := hbound
        obtain ⟨pre, y, post, heq, hPy, hpre, hall⟩ := ih ⟨z0, hz0, hPz0⟩
        have hfay : f a < f y := lt_of_lt_of_le hz0gt (hall z0 hz0 hPz0)
        refine ⟨a :: pre, y, post, by rw [heq, List.cons_append], hPy, ?_, ?_⟩
        · intro z hz hPz
          rcases List.mem_cons.mp hz with rfl | hz
          · exact hfay
          · exact hpre z hz hPz
        · intro z hz hPz
          rcases List.mem_cons.mp hz with rfl | hz
          · exact le_of_lt hfay
          · exact hall z hz hPz
    · have hex2 : ∃ x ∈ t, P x := by
        obtain ⟨x, hx, hPx⟩ := hex
        rcases List.mem_cons.mp hx with rfl | hx
        · exact absurd hPx hPa
        · exact ⟨x, hx, hPx⟩
      obtain ⟨pre, y, post, heq, hPy, hpre, hall⟩ := ih hex2
      refine ⟨a :: pre, y, post, by rw [heq, List.cons_append], hPy, ?_, ?_⟩
      · intro z hz hPz
        rcases List.mem_cons.mp hz with rfl | hz
        · exact absurd hPz hPa
        · exact hpre z hz hPz
      · intro z hz hPz
        rcases List.mem_cons.mp hz with rfl | hz
        · exact absurd hPz hPa
        · exact hall z hz hPz

/-- Under the routing conditions of the general branch, answer_question
is the general search. -/
theorem answer_eq_general (st : ParserState) (tok : Str → List Str) (isStop : Str → Bool)
    (q : Str) (hl : st.is_loaded = true) (hr : routesGeneral q = true) :
    answer_question st tok isStop q = general_search st tok isStop q := by
  have h5 := hr
  simp only [routesGeneral, Bool.and_eq_true, Bool.not_eq_true'] at h5
  obtain ⟨⟨⟨⟨ha, hb⟩, hc⟩, hd⟩, he⟩ := h5
  unfold answer_question
  rw [hl, ha, hb, hc, hd, he]
  simp

/-- C4 counterexample: the claim states the score with denominator
max(|question-words|, 1) over token sets, but the code divides by the
length of the filtered token list, duplicates included.  For the question
"zebra zebra" (two identical tokens after filtering, no routing keyword)
against a loaded document whose sole section "other" holds "zebra gate",
the code returns that section at confidence 1/2, while the set-based
formula of the claim yields 1, so the returned confidence is not the
score the claim describes. -/
theorem claim4_counterexample :
    routesGeneral (toL "zebra zebra") = true ∧
    (⟨toL "zebra gate", [("other", toL "zebra gate")], ⟨[], [], [], [], []⟩,
      true⟩ : ParserState).is_loaded = true ∧
    (answer_question
      ⟨toL "zebra gate", [("other", toL "zebra gate")], ⟨[], [], [], [], []⟩, true⟩
      wsTok noStop (toL "zebra zebra")).1.2.2 = ["other"] ∧
    (answer_question
      ⟨toL "zebra gate", [("other", toL "zebra gate")], ⟨[], [], [], [], []⟩, true⟩
      wsTok noStop (toL "zebra zebra")).1.2.1 = 1/2 ∧
    claimScoreSet (qWordsOf wsTok noStop (toL "zebra zebra"))
      (qWordsOf wsTok noStop (toL "zebra gate")) = 1 ∧
    ¬ ((1 : ℚ)/2 = 1) := by
  have hnum : ((dedup (qWordsOf wsTok noStop (toL "zebra zebra"))).filter
      (fun w => decide (w ∈ qWordsOf wsTok noStop (toL "zebra gate")))).length = 1 := rfl
  have hden : max (qWordsOf wsTok noStop (toL "zebra zebra")).length 1 = 2 := rfl
  have hdens : max (dedup (qWordsOf wsTok noStop (toL "zebra zebra"))).length 1 = 1 := rfl
  have hscore : secScore wsTok noStop (qWordsOf wsTok noStop (toL "zebra zebra"))
      (toL "zebra gate") = 1/2 := by
    unfold secScore overlapScore
    rw [hnum, hden]
    norm_num
  have hloop : searchLoop wsTok noStop (qWordsOf wsTok noStop (toL "zebra zebra"))
      [("other", toL "zebra gate")] ([], 0, []) =
      ((toL "zebra gate").take 300 ++ dotsL,
        secScore wsTok noStop (qWordsOf wsTok noStop (toL "zebra zebra")) (toL "zebra gate"),
        ["other"]) := by
    have h := searchLoop_first_max wsTok noStop (qWordsOf wsTok noStop (toL "zebra zebra"))
      [] "other" (toL "zebra gate") [] ([], 0, []) (by decide)
      (by rw [hscore]; norm_num) (by simp) (by simp)
    simpa using h
  have hag := answer_eq_general
    ⟨toL "zebra gate", [("other", toL "zebra gate")], ⟨[], [], [], [], []⟩, true⟩
    wsTok noStop (toL "zebra zebra") rfl (by decide)
  have hgs : (general_search
      ⟨toL "zebra gate", [("other", toL "zebra gate")], ⟨[], [], [], [], []⟩, true⟩
      wsTok noStop (toL "zebra zebra")).1 =
      ((toL "zebra gate").take 300 ++ dotsL, 1/2, ["other"]) := by
    unfold general_search
    dsimp only
    rw [hloop, hscore, if_pos (by norm_num : (1 : ℚ)/10 < 1/2)]
  refine ⟨by decide, rfl, ?_, ?_, ?_, by norm_num⟩
  · rw [hag, hgs]
  · rw [hag, hgs]
  · unfold claimScoreSet
    rw [hnum, hdens]
    norm_num

/-- C4 (amended): for every loaded document and every question routed to
the general responder, with the score of a section computed as
|question-word set ∩ section-word set| divided by max(n, 1) where n is
the length of the filtered question token list with duplicates kept (the
denominator the code uses, amending the set-cardinality denominator of
the claim), the responder either returns the fixed not-found message at
confidence 1/5 with empty sources, in which case no non-empty section
scores strictly above 1/10, or returns the first-encountered
maximal-scoring section truncated to 300 characters with an ellipsis, at
its score as confidence, with that section as sole source, that score
strictly above 1/10, at least every other section score, and strictly
above every earlier section score.  In particular it never selects a
section whose score is at most 1/10. -/
theorem claim4_general_responder (st : ParserState) (tok : Str → List Str)
    (isStop : Str → Bool) (q : Str) (hl : st.is_loaded = true)
    (hr : routesGeneral q = true) :
    ((answer_question st tok isStop q).1.2.2 = [] ∧
     (answer_question st tok isStop q).1.1 = msgNoRel ∧
     (answer_question st tok isStop q).1.2.1 = 1/5 ∧
     ∀ x ∈ st.cv_sections, x.2 ≠ [] →
       secScore tok isStop (qWordsOf tok isStop q) x.2 ≤ 1/10) ∨
    (∃ pre name content post,
      st.cv_sections = pre ++ (name, content) :: post ∧ content ≠ [] ∧
      (answer_question st tok isStop q).1 =
        (content.take 300 ++ dotsL, secScore tok isStop (qWordsOf tok isStop q) content, [name]) ∧
      (1 : ℚ)/10 < secScore tok isStop (qWordsOf tok isStop q) content ∧
      (∀ x ∈ pre, x.2 ≠ [] →
        secScore tok isStop (qWordsOf tok isStop q) x.2 <
          secScore tok isStop (qWordsOf tok isStop q) content) ∧
      (∀ x ∈ st.cv_sections, x.2 ≠ [] →
        secScore tok isStop (qWordsOf tok isStop q) x.2 ≤
          secScore tok isStop (qWordsOf tok isStop q) content)) := by
  rw [answer_eq_general st tok isStop q hl hr]
  set qw := qWordsOf tok isStop q with hqw
  by_cases hall : ∀ x ∈ st.cv_sections, x.2 ≠ [] → secScore tok isStop qw x.2 ≤ 0
  · left
    have hloop := searchLoop_all_le tok isStop qw st.cv_sections ([], 0, []) hall
    have hgs : (general_search st tok isStop q).1 = (msgNoRel, 1/5, []) := by
      unfold general_search
      dsimp only
      rw [← hqw, hloop]
      norm_num
    exact ⟨by rw [hgs], by rw [hgs], by rw [hgs], fun x hx hne =>
      le_trans (hall x hx hne) (by norm_num)⟩
  · push_neg at hall
    obtain ⟨x0, hx0, hx0ne, hx0pos⟩ := hall
    obtain ⟨pre, y, post, heq, hPy, hpre, hmax⟩ :=
      first_max_decomp (fun p => secScore tok isStop qw p.2) (fun p => p.2 ≠ [])
        st.cv_sections ⟨x0, hx0, hx0ne⟩
    obtain ⟨yn, yc⟩ := y
    have hypos : (0 : ℚ) < secScore tok isStop qw yc :=
      lt_of_lt_of_le hx0pos (hmax x0 hx0 hx0ne)
    have hloop :
        searchLoop tok isStop qw st.cv_sections ([], 0, []) =
          (yc.take 300 ++ dotsL, secScore tok isStop qw yc, [yn]) := by
      rw [heq]
      exact searchLoop_first_max tok isStop qw pre yn yc post ([], 0, []) hPy hypos hpre
        (fun z hz hzne => hmax z (heq ▸ List.mem_append_right pre (List.mem_cons_of_mem _ hz)) hzne)
    by_cases hth : (1 : ℚ)/10 < secScore tok isStop qw yc
    · right
      have hgs : (general_search st tok isStop q).1 =
          (yc.take 300 ++ dotsL, secScore tok isStop qw yc, [yn]) := by
        unfold general_search
        dsimp only
        rw [← hqw, hloop, if_pos hth]
      exact ⟨pre, yn, yc, post, heq, hPy, hgs, hth, hpre, hmax⟩
    · left
      have hgs : (general_search st tok isStop q).1 = (msgNoRel, 1/5, []) := by
        unfold general_search
        dsimp only
        rw [← hqw, hloop, if_neg hth]
      exact ⟨by rw [hgs], by rw [hgs], by rw [hgs], fun x hx hne =>
        le_trans (hmax x hx hne) (not_lt.mp hth)⟩

theorem claim4_witness :
    ((⟨toL "zebra gate", [("other", toL "zebra gate")], ⟨[], [], [], [], []⟩,
        true⟩ : ParserState).is_loaded = true ∧
      routesGeneral (toL "find the zebra") = true) ∧
    (((answer_question
        ⟨toL "zebra gate", [("other", toL "zebra gate")], ⟨[], [], [], [], []⟩, true⟩
        wsTok noStop (toL "find the zebra")).1.2.2 = [] ∧
      (answer_question
        ⟨toL "zebra gate", [("other", toL "zebra gate")], ⟨[], [], [], [], []⟩, true⟩
        wsTok noStop (toL "find the zebra")).1.1 = msgNoRel ∧
      (answer_question
        ⟨toL "zebra gate", [("other", toL "zebra gate")], ⟨[], [], [], [], []⟩, true⟩
        wsTok noStop (toL "find the zebra")).1.2.1 = 1/5 ∧
      ∀ x ∈ (⟨toL "zebra gate", [("other", toL "zebra gate")], ⟨[], [], [], [], []⟩,
          true⟩ : ParserState).cv_sections, x.2 ≠ [] →
        secScore wsTok noStop (qWordsOf wsTok noStop (toL "find the zebra")) x.2 ≤ 1/10) ∨
     (∃ pre name content post,
       (⟨toL "zebra gate", [("other", toL "zebra gate")], ⟨[], [], [], [], []⟩,
          true⟩ : ParserState).cv_sections = pre ++ (name, content) :: post ∧ content ≠ [] ∧
       (answer_question
         ⟨toL "zebra gate", [("other", toL "zebra gate")], ⟨[], [], [], [], []⟩, true⟩
         wsTok noStop (toL "find the zebra")).1 =
         (content.take 300 ++ dotsL,
           secScore wsTok noStop (qWordsOf wsTok noStop (toL "find the zebra")) content, [name]) ∧
       (1 : ℚ)/10 <
         secScore wsTok noStop (qWordsOf wsTok noStop (toL "find the zebra")) content ∧
       (∀ x ∈ pre, x.2 ≠ [] →
         secScore wsTok noStop (qWordsOf wsTok noStop (toL "find the zebra")) x.2 <
           secScore wsTok noStop (qWordsOf wsTok noStop (toL "find the zebra")) content) ∧
       (∀ x ∈ (⟨toL "zebra gate", [("other", toL "zebra gate")], ⟨[], [], [], [], []⟩,
           true⟩ : ParserState).cv_sections, x.2 ≠ [] →
         secScore wsTok noStop (qWordsOf wsTok noStop (toL "find the zebra")) x.2 ≤
           secScore wsTok noStop (qWordsOf wsTok noStop (toL "find the zebra")) content))) :=
  ⟨⟨rfl, by decide⟩,
   claim4_general_responder
     ⟨toL "zebra gate", [("other", toL "zebra gate")], ⟨[], [], [], [], []⟩, true⟩
     wsTok noStop (toL "find the zebra") rfl (by decide)⟩
